import Mathlib

/-!
Verification of the funcversion versioned-dispatch registry (funcversion/core.py).

The embedding models:
  * the semantic-version comparison used as sort key (`packaging.version`,
    an external collaborator per the specification's scope),
  * the per-operation version map (`VersionedFunction.versions`), a Python
    dict modelled as an insertion-ordered association list,
  * call-time resolution (`VersionedFunction.__call__`),
  * the mutators `add_version`, `remove_version`, `deprecate_version`,
  * the registration decorator `version`,
  * the MRO merge performed on attribute access
    (`VersionedFunction.__get__` / `_get_versions_in_mro`).

Implementations are identified by numeric references (`Impl`); the
deprecated flag, which the code stores with `setattr` on the function
object itself, is modelled as a global set of marked implementation ids.
-/

namespace Funcversion

/-- An implementation reference: stands for one registered function object. -/
abbrev Impl := Nat

/-! ### Semantic-version parsing and ordering (external collaborator)

`packaging.version` is declared out of scope by the specification ("assume an
external library"). We model it for plain release identifiers: dotted strings
of decimal numerals parse to their release tuple; comparison follows semantic
precedence, under which trailing zero components are insignificant
(`1.0` and `1.0.0` parse equal), so parsing normalises by stripping them and
comparison is lexicographic on the remaining components. Identifiers that are
not dotted numerals (e.g. `"invalid_version"`) fail to parse. -/

/-- Split a character list at every dot. -/
def splitDots : List Char → List (List Char)
  | [] => [[]]
  | c :: cs =>
    if c = '.' then [] :: splitDots cs
    else
      match splitDots cs with
      | [] => [[c]]
      | g :: gs => (c :: g) :: gs

/-- Parse a nonempty all-digit character group as a numeral. -/
def parseNatChars (cs : List Char) : Option Nat :=
  if cs.isEmpty then none
  else if cs.all Char.isDigit then
    some (cs.foldl (fun a c => 10 * a + (c.toNat - 48)) 0)
  else none

/-- Normalise a release tuple by dropping trailing zero components,
so that tuples of equal semantic precedence become equal. -/
def stripZeros (l : List Nat) : List Nat :=
  (l.reverse.dropWhile (· == 0)).reverse

/-- Parse a version identifier; `none` models `InvalidVersion`. -/
def parseVersion (s : String) : Option (List Nat) :=
  ((splitDots s.toList).mapM parseNatChars).map stripZeros

/-- The sort key used by `sorted(..., key=pkg_version.parse)`. Stored version
ids always parse, so the default is never reached on reachable maps. -/
def keyOf (s : String) : List Nat := (parseVersion s).getD []

/-- The ascending comparison relation on version ids (lexicographic on
parsed release tuples, Mathlib's linear order on `List Nat`). -/
def leA (a b : String) : Prop := keyOf a ≤ keyOf b

/-- The descending comparison relation, modelling `sorted(..., reverse=True)`. -/
def leD (a b : String) : Prop := keyOf b ≤ keyOf a

instance : DecidableRel leA := fun a b => inferInstanceAs (Decidable (keyOf a ≤ keyOf b))

instance : DecidableRel leD := fun a b => inferInstanceAs (Decidable (keyOf b ≤ keyOf a))

instance : IsTotal String leA := ⟨fun a b => le_total (keyOf a) (keyOf b)⟩

instance : IsTrans String leA := ⟨fun _ _ _ h1 h2 => le_trans h1 h2⟩

instance : IsTotal String leD := ⟨fun a b => le_total (keyOf b) (keyOf a)⟩

instance : IsTrans String leD := ⟨fun _ _ _ h1 h2 => le_trans h2 h1⟩

/-! ### The version map

A Python dict `version_id -> function`, modelled as an insertion-ordered
association list. Reachable maps have pairwise distinct keys (dict keys are
unique); lookups return the first matching entry. -/

/-- The versions dict of one `VersionedFunction` handle. -/
abbrev VersionMap := List (String × Impl)

/-- Key list of a map, in insertion order (`self.versions.keys()`). -/
def keysOf (m : VersionMap) : List String := m.map Prod.fst

/-- Dict item lookup `self.versions[v]`. -/
def lookupV (v : String) : VersionMap → Option Impl
  | [] => none
  | p :: ps => if p.1 = v then some p.2 else lookupV v ps

/-- Dict membership test `v in self.versions`. -/
def containsV (m : VersionMap) (v : String) : Bool := (lookupV v m).isSome

/-- Dict item assignment `m[v] = f`: replace the entry in place when the key
is present, append otherwise. -/
def setKey : VersionMap → String → Impl → VersionMap
  | [], v, f => [(v, f)]
  | p :: ps, v, f => if p.1 = v then (v, f) :: ps else p :: setKey ps v f

/-- Python `m.update(other)`: entries of `other` overwrite entries of `m`
sharing the key; new keys are appended in `other`'s order. -/
def dictUpdate (m other : VersionMap) : VersionMap :=
  other.foldl (fun acc p => setKey acc p.1 p.2) m

/-! ### Errors and call outcomes

`core.py` raises `ValueError` with a "No versions registered" message when
the effective map is empty, and `VersionNotFoundError` (from the package's
exceptions module, which only declares the class) when a requested id is
absent. The registration failures are the `ValueError`s of `add_version` /
`version`. The specification's error taxonomy names these `NoVersionsFound`,
`VersionNotFound`, `VersionExists` and `InvalidVersion`, all distinct. -/

/-- Resolution-time errors. -/
inductive VErr where
  | noVersionsFound
  | versionNotFound
  deriving DecidableEq

/-- Registration-time errors. -/
inductive AddError where
  | versionExists
  | invalidVersion
  deriving DecidableEq

/-- Outcome of a call: the implementation invoked together with whether a
deprecation notice was emitted during this call, or an error. -/
inductive CallOutcome where
  | ok (f : Impl) (warned : Bool)
  | err (e : VErr)
  deriving DecidableEq

/-! ### VersionedFunction operations (core.py lines 29-188) -/

/-- `_get_latest_version` (core.py 150-166): keys sorted descending by
semantic version (Python's sort is stable, modelled by `insertionSort` with
the flipped relation), first element; `ValueError` when the map is empty. -/
def get_latest_version (vm : VersionMap) : Except VErr String :=
  match (List.insertionSort leD (keysOf vm)).head? with
  | some c => .ok c
  | none => .error .noVersionsFound

/-- `available_versions` (core.py 107-114): keys sorted ascending. -/
def available_versions (vm : VersionMap) : List String :=
  List.insertionSort leA (keysOf vm)

/-- `__call__` (core.py 29-65). The empty-map check comes first; an explicit
version is then looked up (warning iff its function object carries the
deprecated mark), otherwise the latest version is resolved and invoked
without any deprecation check. The two inner `versionNotFound` /
`noVersionsFound` fallbacks in the unversioned branch are unreachable: the
latest id is drawn from the keys of the nonempty map. -/
def callVersion (vm : VersionMap) (depr : List Impl) (v? : Option String) : CallOutcome :=
  if vm.isEmpty then .err .noVersionsFound
  else
    match v? with
    | some v =>
      match lookupV v vm with
      | some f => .ok f (depr.contains f)
      | none => .err .versionNotFound
    | none =>
      match get_latest_version vm with
      | .ok lv =>
        match lookupV lv vm with
        | some f => .ok f false
        | none => .err .versionNotFound
      | .error e => .err e

/-- `add_version` (core.py 82-105): duplicate check first, then semantic
validation, then dict insertion of the fresh key. Returns the result paired
with the map after the call (unchanged on failure, since both raises precede
the insertion). -/
def add_version (vm : VersionMap) (v : String) (f : Impl) :
    Except AddError Unit × VersionMap :=
  if containsV vm v then (.error .versionExists, vm)
  else
    match parseVersion v with
    | some _ => (.ok (), vm ++ [(v, f)])
    | none => (.error .invalidVersion, vm)

/-- `remove_version` (core.py 133-148): membership check, then `del`. -/
def remove_version (vm : VersionMap) (v : String) :
    Except VErr Unit × VersionMap :=
  if containsV vm v then (.ok (), vm.filter (fun p => p.1 != v))
  else (.error .versionNotFound, vm)

/-- `deprecate_version` (core.py 116-131): membership check, then
`setattr(self.versions[v], '_deprecated', True)` — the mark lives on the
shared function object, modelled by inserting its id into the global set. -/
def deprecate_version (vm : VersionMap) (depr : List Impl) (v : String) :
    Except VErr Unit × List Impl :=
  match lookupV v vm with
  | some f => (.ok (), f :: depr)
  | none => (.error .versionNotFound, depr)

/-! ### The registration decorator (core.py 191-234) -/

/-- The process-wide `_version_registry`, a defaultdict: total map from
operation key to version map, defaulting to the empty map. -/
abbrev Registry := String → VersionMap

/-- The `version` decorator body: semantic validation first, then the
duplicate check against the key's slot, then registration. Returns the
result paired with the registry after the call. -/
def registerVersion (reg : Registry) (key v : String) (f : Impl) :
    Except AddError Unit × Registry :=
  match parseVersion v with
  | none => (.error .invalidVersion, reg)
  | some _ =>
    if containsV (reg key) v then (.error .versionExists, reg)
    else (.ok (), fun k => if k = key then reg key ++ [(v, f)] else reg k)

/-! ### Attribute access and the MRO merge (core.py 67-80, 168-178)

A class hierarchy is modelled by its linearised ancestor list, most-derived
first (Python's `owner.mro()`), each class carrying the `versions` map of the
`VersionedFunction` it declares under the member name, or `none` when it does
not declare one (classmethod/staticmethod wrappers are unwrapped by the code
before this check, so a wrapped declaration is a `some` like any other). -/

/-- The linearised ancestor list of the accessing type, most-derived first. -/
abbrev MroChain := List (Option VersionMap)

/-- Fold of `_get_versions_in_mro`'s loop from an initial accumulator:
`versions.update(cls_attr.versions)` for each class in MRO order, so later
(less derived) classes overwrite on key collision. -/
def mroMergeFrom (acc : VersionMap) (chain : MroChain) : VersionMap :=
  chain.foldl (fun a o => dictUpdate a (o.getD [])) acc

/-- `_get_versions_in_mro` (core.py 168-178): start from the empty dict and
update with each MRO class's map in most-derived-first order. -/
def get_versions_in_mro (chain : MroChain) : VersionMap :=
  mroMergeFrom [] chain

/-- The rebinding performed by `__get__`: `self.versions = merged_versions`
replaces the map of the most-derived declaring class's descriptor (the one
attribute lookup found); every other class's state is untouched. -/
def rebindFirst : MroChain → VersionMap → MroChain
  | [], _ => []
  | none :: rest, m => none :: rebindFirst rest m
  | some _ :: rest, m => some m :: rest

/-- `__get__` (core.py 67-80): recompute the merged map for the accessing
type's MRO and rebind the found descriptor's map to it; the returned handle
resolves against the merged map. -/
def accessAt (chain : MroChain) : VersionMap × MroChain :=
  (get_versions_in_mro chain, rebindFirst chain (get_versions_in_mro chain))

/-- `A.member.add_version v f` for an ancestor `A` declaring the member:
attribute access on `A` first recomputes `A`'s merged map and rebinds `A`'s
descriptor to it, then `add_version` mutates that same dict. `pre` is the
chain of classes more derived than `A`, `aMap` is `A`'s current map, `post`
is `A`'s own ancestor chain. -/
def ancestorAddVersion (pre : MroChain) (aMap : VersionMap) (post : MroChain)
    (v : String) (f : Impl) : Except AddError MroChain :=
  let m := get_versions_in_mro (some aMap :: post)
  match add_version m v f with
  | (.ok _, m') => .ok (pre ++ some m' :: post)
  | (.error e, _) => .error e

/-- `A.member.remove_version v` for an ancestor `A`, as in
`ancestorAddVersion`. -/
def ancestorRemoveVersion (pre : MroChain) (aMap : VersionMap) (post : MroChain)
    (v : String) : Except VErr MroChain :=
  let m := get_versions_in_mro (some aMap :: post)
  match remove_version m v with
  | (.ok _, m') => .ok (pre ++ some m' :: post)
  | (.error e, _) => .error e

/-! ### Concurrency model (core.py 82-105 under the spec's §5 scenario)

`add_version` takes no lock: it is a membership check followed, later, by a
dict store, each individually atomic under the interpreter lock but with
admissible thread switches between them. -/

/-- N registrations of the same id executed serially (no interleaving inside
any single `add_version`). Returns each attempt's result and the final map. -/
def runSerialAdds (vm : VersionMap) (v : String) :
    List Impl → List (Except AddError Unit) × VersionMap
  | [] => ([], vm)
  | f :: fs =>
    let r := add_version vm v f
    let rest := runSerialAdds r.2 v fs
    (r.1 :: rest.1, rest.2)

/-- Two concurrent `add_version` calls for the same valid id under the
schedule check₁, check₂, store₁, store₂ — admissible because nothing
in `add_version` prevents a thread switch between its membership check and
its dict store. Returns whether each thread succeeded (a thread that sees
the id present raises `VersionExists` and never stores) and the final map. -/
def interleavedDoubleAdd (vm : VersionMap) (v : String) (f1 f2 : Impl) :
    Bool × Bool × VersionMap :=
  let c1 := containsV vm v
  let c2 := containsV vm v
  let vm1 := if c1 then vm else setKey vm v f1
  let vm2 := if c2 then vm1 else setKey vm1 v f2
  (!c1, !c2, vm2)

/-! ### Basic lemmas about map operations -/

theorem lookupV_append_none (xs ys : VersionMap) (v : String)
    (h : lookupV v xs = none) : lookupV v (xs ++ ys) = lookupV v ys := by
  induction xs with
  | nil => rfl
  | cons p ps ih =>
    by_cases hp : p.1 = v
    · simp [lookupV, hp] at h
    · simp [lookupV, hp] at h ⊢
      exact ih h

theorem isEmpty_false_of_lookupV (vm : VersionMap) (v : String) (f : Impl)
    (h : lookupV v vm = some f) : vm.isEmpty = false := by
  cases vm with
  | nil => simp [lookupV] at h
  | cons p ps => rfl

theorem lookupV_mem (m : VersionMap) (v : String) (f : Impl)
    (h : lookupV v m = some f) : (v, f) ∈ m := by
  induction m with
  | nil => simp [lookupV] at h
  | cons p ps ih =>
    obtain ⟨a, b⟩ := p
    by_cases hp : a = v
    · simp [lookupV, hp] at h
      exact List.mem_cons.2 (Or.inl (by rw [hp, h]))
    · simp [lookupV, hp] at h
      exact List.mem_cons_of_mem _ (ih h)

/-! ### Lemmas about the sorted key lists -/

theorem keyOf_le_head_sortD (l : List String) (w : String) (hw : w ∈ l) (c : String)
    (hc : (List.insertionSort leD l).head? = some c) : keyOf w ≤ keyOf c := by
  have hs := List.sorted_insertionSort leD l
  have hw' : w ∈ List.insertionSort leD l := (List.mem_insertionSort leD).2 hw
  cases hsort : List.insertionSort leD l with
  | nil => rw [hsort] at hw'; cases hw'
  | cons a rest =>
    rw [hsort] at hc hs hw'
    have hac : a = c := by simpa using hc
    subst hac
    rcases List.mem_cons.1 hw' with hwa | hwr
    · rw [hwa]
    · exact List.rel_of_sorted_cons hs w hwr

theorem keyOf_le_getLast_sorted (A : List String) (w c : String) :
    List.Sorted leA A → w ∈ A → A.getLast? = some c → keyOf w ≤ keyOf c := by
  induction A with
  | nil => intro _ hw _; cases hw
  | cons a rest ih =>
    intro hA hw hc
    cases rest with
    | nil =>
      have hwa : w = a := by simpa using hw
      have hca : a = c := by simpa using hc
      rw [hwa, hca]
    | cons b rest' =>
      rw [List.getLast?_cons_cons] at hc
      rcases List.mem_cons.1 hw with hwa | hwr
      · have hcmem : c ∈ b :: rest' := List.mem_of_mem_getLast? (by simp [hc])
        rw [hwa]
        exact List.rel_of_sorted_cons hA c hcmem
      · exact ih hA.of_cons hwr hc

theorem lookupV_none_of_not_contains (vm : VersionMap) (v : String)
    (h : containsV vm v = false) : lookupV v vm = none := by
  unfold containsV at h
  cases hl : lookupV v vm with
  | none => rfl
  | some f => rw [hl] at h; simp at h

theorem lookupV_append_self (vm : VersionMap) (v : String) (f : Impl)
    (h : containsV vm v = false) : lookupV v (vm ++ [(v, f)]) = some f := by
  rw [lookupV_append_none _ _ _ (lookupV_none_of_not_contains vm v h)]
  simp [lookupV]

theorem runSerialAdds_all_fail (v : String) (fs : List Impl) (vm : VersionMap)
    (h : containsV vm v = true) :
    runSerialAdds vm v fs = (fs.map fun _ => Except.error AddError.versionExists, vm) := by
  induction fs with
  | nil => rfl
  | cons f fs ih => simp [runSerialAdds, add_version, h, ih]

/-! ### The claims -/

/-- C1: the code evaluated at the claim's scenario. In a three-level chain
where grandparent (impl 0), parent (impl 1) and child (impl 2) each register
version "1.0.0" under the same member name, the merged map computed at
attribute access on the child's type maps "1.0.0" to the GRANDPARENT's
implementation, and the unversioned call on a child instance invokes it —
not the child's own implementation as the claim states: `dict.update` over
`owner.mro()` (walked most-derived first) lets later, less-derived entries
overwrite on a version-id collision. -/
theorem mro_collision_resolves_to_least_derived :
    get_versions_in_mro [some [("1.0.0", 2)], some [("1.0.0", 1)], some [("1.0.0", 0)]]
      = [("1.0.0", 0)] ∧
    callVersion
      (get_versions_in_mro [some [("1.0.0", 2)], some [("1.0.0", 1)], some [("1.0.0", 0)]])
      [] none = .ok 0 false ∧
    (0 : Impl) ≠ 2 := by
  refine ⟨rfl, rfl, by decide⟩

/-- C2: the code evaluated at the claim's scenario. Removing the last version
leaves an empty map; on it the unversioned call fails with `NoVersionsFound`,
but an explicit-version call ALSO fails with `NoVersionsFound` — not with
`VersionNotFound` as the claim (and the repo's own tests) state — because
`__call__` checks the empty map before looking at the requested version. -/
theorem empty_map_calls_eval :
    remove_version [("1.0.0", 0)] "1.0.0" = (.ok (), []) ∧
    callVersion [] [] none = .err .noVersionsFound ∧
    callVersion [] [] (some "1.0.0") = .err .noVersionsFound ∧
    VErr.noVersionsFound ≠ VErr.versionNotFound := by
  refine ⟨rfl, rfl, rfl, by decide⟩

/-- C3: the code evaluated at the failing scenario. A derived class declares
"2.0.0" (impl 5) and its base declares "1.0.0" (impl 7). A first attribute
access on the derived type executes `self.versions = merged_versions`,
rebinding the derived descriptor's stored map to the merged copy — already
a mutation of the accessing class's stored state. After the base then
removes "1.0.0" through its own handle, a subsequent access on the derived
type still resolves "1.0.0" to impl 7 out of that stale merged copy (and the
call succeeds), whereas the uncontaminated derived map would no longer
resolve it: the descendant does NOT reflect the ancestor's current state,
contradicting the claim. -/
theorem stale_merged_copy_after_access :
    accessAt [some [("2.0.0", 5)], some [("1.0.0", 7)]]
      = ([("2.0.0", 5), ("1.0.0", 7)],
         [some [("2.0.0", 5), ("1.0.0", 7)], some [("1.0.0", 7)]]) ∧
    ancestorRemoveVersion [some [("2.0.0", 5), ("1.0.0", 7)]] [("1.0.0", 7)] [] "1.0.0"
      = .ok [some [("2.0.0", 5), ("1.0.0", 7)], some []] ∧
    lookupV "1.0.0" (get_versions_in_mro [some [("2.0.0", 5), ("1.0.0", 7)], some []])
      = some 7 ∧
    callVersion (get_versions_in_mro [some [("2.0.0", 5), ("1.0.0", 7)], some []])
      [] (some "1.0.0") = .ok 7 false ∧
    lookupV "1.0.0" (get_versions_in_mro [some [("2.0.0", 5)], some []]) = none := by
  refine ⟨rfl, rfl, rfl, rfl, rfl⟩

/-- C4 counterexample: two threads concurrently registering the same valid id
into the same empty slot, under the admissible schedule where both membership
checks run before either store (`add_version` takes no lock between its
check and its dict store): BOTH succeed, NEITHER observes `VersionExists`,
and the second store silently overwrites the first implementation — refuting
"exactly one registration succeeds and the other N−1 observe the
VersionExists error" for N = 2. -/
theorem concurrent_adds_can_both_succeed :
    interleavedDoubleAdd [] "1.1.0" 1 2 = (true, true, [("1.1.0", 2)]) := by decide

/-- C4 (amended): when the N attempts registering the same valid, fresh id
execute serially, exactly the first succeeds, the remaining N−1 observe
`VersionExists`, and a subsequent resolve of the id returns the single
registered implementation. -/
theorem serialized_adds_exactly_one_succeeds (vm : VersionMap) (v : String)
    (f : Impl) (fs : List Impl)
    (hv : (parseVersion v).isSome = true) (hfree : containsV vm v = false) :
    (runSerialAdds vm v (f :: fs)).1
      = Except.ok () :: (fs.map fun _ => Except.error AddError.versionExists) ∧
    (runSerialAdds vm v (f :: fs)).2 = vm ++ [(v, f)] ∧
    callVersion ((runSerialAdds vm v (f :: fs)).2) [] (some v) = .ok f false := by
  obtain ⟨pv, hpv⟩ := Option.isSome_iff_exists.1 hv
  have hadd : add_version vm v f = (.ok (), vm ++ [(v, f)]) := by
    simp [add_version, hfree, hpv]
  have hcontains : containsV (vm ++ [(v, f)]) v = true := by
    unfold containsV
    rw [lookupV_append_self vm v f hfree]
    rfl
  have hrun : runSerialAdds vm v (f :: fs)
      = (Except.ok () :: (fs.map fun _ => Except.error AddError.versionExists),
         vm ++ [(v, f)]) := by
    simp [runSerialAdds, hadd, runSerialAdds_all_fail v fs _ hcontains]
  have hlook := lookupV_append_self vm v f hfree
  refine ⟨by rw [hrun], by rw [hrun], ?_⟩
  rw [hrun]
  simp [callVersion, isEmpty_false_of_lookupV _ _ _ hlook, hlook]

/-- Witness for C4's amended theorem: three serialized attempts at the same
fresh id on a one-entry slot. -/
theorem serialized_adds_exactly_one_succeeds_witness :
    (runSerialAdds [("1.0.0", 0)] "1.1.0" [5, 6, 7]).1
      = [Except.ok (), Except.error AddError.versionExists,
         Except.error AddError.versionExists] ∧
    callVersion ((runSerialAdds [("1.0.0", 0)] "1.1.0" [5, 6, 7]).2) [] (some "1.1.0")
      = .ok 5 false := by
  have h := serialized_adds_exactly_one_succeeds [("1.0.0", 0)] "1.1.0" 5 [6, 7]
    (by decide) (by decide)
  exact ⟨h.1, h.2.2⟩

/-- C5: for a registered version whose implementation carries the deprecated
mark, every call explicitly requesting it returns that implementation and
emits the deprecation notice (resolution is a pure function of the map and
mark state, so each repeated call emits again), while an unversioned call —
which resolves to the latest version — never emits a notice, whatever the
mark state, including when the latest version is itself deprecated. -/
theorem deprecated_explicit_call_warns (vm : VersionMap) (depr : List Impl)
    (v : String) (f : Impl)
    (hv : lookupV v vm = some f) (hd : depr.contains f = true) :
    callVersion vm depr (some v) = .ok f true ∧
    ∀ g w, callVersion vm depr none = .ok g w → w = false := by
  have hne := isEmpty_false_of_lookupV vm v f hv
  constructor
  · simp [callVersion, hne, hv]
    simpa using hd
  · intro g w h
    unfold callVersion at h
    rw [hne] at h
    simp only [Bool.false_eq_true, if_false] at h
    cases hl : get_latest_version vm with
    | ok lv =>
      rw [hl] at h
      cases hk : lookupV lv vm with
      | some f' =>
        simp only [hk] at h
        injection h with hf hw
        rw [← hw]
      | none =>
        simp only [hk] at h
        simp at h
    | error e =>
      rw [hl] at h
      simp at h

/-- Witness for C5: both registered versions are deprecated; the explicit
request for "1.0.0" warns, the unversioned call resolves "2.0.0" silently. -/
theorem deprecated_explicit_call_warns_witness :
    callVersion [("1.0.0", 3), ("2.0.0", 4)] [4, 3] (some "1.0.0") = .ok 3 true ∧
    callVersion [("1.0.0", 3), ("2.0.0", 4)] [4, 3] none = .ok 4 false := by
  refine ⟨(deprecated_explicit_call_warns [("1.0.0", 3), ("2.0.0", 4)] [4, 3]
    "1.0.0" 3 (by decide) (by decide)).1, by decide⟩

/-- C6: base type registers "1.0.0" (impl `b`), derived type registers
"2.0.0" (impl `d`) under the same member name. On the derived type's merged
view the available versions are exactly ["1.0.0", "2.0.0"], the current
version is "2.0.0", an explicit request for "1.0.0" invokes the base
implementation, the unversioned call invokes the derived one, and the base
type's own view remains exactly ["1.0.0"]. -/
theorem inheritance_two_level_views (b d : Impl) :
    available_versions (get_versions_in_mro [some [("2.0.0", d)], some [("1.0.0", b)]])
      = ["1.0.0", "2.0.0"] ∧
    get_latest_version (get_versions_in_mro [some [("2.0.0", d)], some [("1.0.0", b)]])
      = .ok "2.0.0" ∧
    callVersion (get_versions_in_mro [some [("2.0.0", d)], some [("1.0.0", b)]])
      [] (some "1.0.0") = .ok b false ∧
    callVersion (get_versions_in_mro [some [("2.0.0", d)], some [("1.0.0", b)]])
      [] none = .ok d false ∧
    available_versions (get_versions_in_mro [some [("1.0.0", b)]]) = ["1.0.0"] := by
  exact ⟨rfl, rfl, rfl, rfl, rfl⟩

/-- C7 counterexample: the distinct ids "1.0.0" and "1.0" have equal semantic
precedence yet can both be registered (the duplicate check compares strings).
On the resulting reachable map, `current_version` is "1.0.0" (Python's stable
descending sort keeps the earlier of two equal-key ids first) while the last
element of the ascending-sorted `available_versions` is "1.0", so the
claim's equality fails. -/
theorem current_version_not_last_counterexample :
    add_version [] "1.0.0" 0 = (.ok (), [("1.0.0", 0)]) ∧
    add_version [("1.0.0", 0)] "1.0" 1 = (.ok (), [("1.0.0", 0), ("1.0", 1)]) ∧
    get_latest_version [("1.0.0", 0), ("1.0", 1)] = .ok "1.0.0" ∧
    available_versions [("1.0.0", 0), ("1.0", 1)] = ["1.0.0", "1.0"] ∧
    ("1.0.0" : String) ≠ "1.0" := by
  refine ⟨rfl, rfl, rfl, rfl, by decide⟩

/-- C7 (amended): `current_version` fails with `NoVersionsFound` exactly when
the version set is empty; otherwise it returns a registered id of maximal
semantic precedence among `available_versions`, and — provided no two
registered ids have equal semantic precedence — it is the last element of
the ascending-sorted `available_versions` list. -/
theorem current_version_spec (vm : VersionMap) :
    (get_latest_version vm = .error .noVersionsFound ↔ vm = []) ∧
    ∀ c, get_latest_version vm = .ok c →
      c ∈ keysOf vm ∧ (∀ w ∈ keysOf vm, keyOf w ≤ keyOf c) ∧
      ((∀ a ∈ keysOf vm, ∀ b ∈ keysOf vm, keyOf a = keyOf b → a = b) →
        (available_versions vm).getLast? = some c) := by
  constructor
  · unfold get_latest_version
    cases hs : (List.insertionSort leD (keysOf vm)).head? with
    | some c =>
      have hc : c ∈ keysOf vm :=
        (List.mem_insertionSort leD).1 (List.mem_of_mem_head? (by simp [hs]))
      constructor
      · intro h; cases h
      · intro h
        rw [h] at hc
        simp [keysOf] at hc
    | none =>
      have hsortnil : List.insertionSort leD (keysOf vm) = [] :=
        List.head?_eq_none_iff.1 hs
      have hkeys : keysOf vm = [] := by
        have hperm := List.perm_insertionSort leD (keysOf vm)
        rw [hsortnil] at hperm
        exact hperm.symm.eq_nil
      constructor
      · intro _
        simpa [keysOf] using hkeys
      · intro _; rfl
  · intro c hc
    have hs : (List.insertionSort leD (keysOf vm)).head? = some c := by
      unfold get_latest_version at hc
      cases hh : (List.insertionSort leD (keysOf vm)).head? with
      | some c' => rw [hh] at hc; cases hc; rfl
      | none => rw [hh] at hc; cases hc
    have hckeys : c ∈ keysOf vm :=
      (List.mem_insertionSort leD).1 (List.mem_of_mem_head? (by simp [hs]))
    refine ⟨hckeys, fun w hw => keyOf_le_head_sortD _ w hw c hs, ?_⟩
    intro hinj
    cases hg : (available_versions vm).getLast? with
    | none =>
      have hAnil : available_versions vm = [] := List.getLast?_eq_none_iff.1 hg
      have hkeysnil : keysOf vm = [] := by
        have hperm := List.perm_insertionSort leA (keysOf vm)
        rw [show List.insertionSort leA (keysOf vm) = [] from hAnil] at hperm
        exact hperm.symm.eq_nil
      rw [hkeysnil] at hckeys
      cases hckeys
    | some c'' =>
      have hc''A : c'' ∈ available_versions vm := List.mem_of_mem_getLast? (by simp [hg])
      have hc''keys : c'' ∈ keysOf vm := by
        rw [available_versions] at hc''A
        exact (List.mem_insertionSort leA).1 hc''A
      have h1 : keyOf c'' ≤ keyOf c := keyOf_le_head_sortD _ c'' hc''keys c hs
      have h2 : keyOf c ≤ keyOf c'' := by
        apply keyOf_le_getLast_sorted (available_versions vm) c c''
          (List.sorted_insertionSort leA _) _ hg
        rw [available_versions]
        exact (List.mem_insertionSort leA).2 hckeys
      have := hinj c hckeys c'' hc''keys (le_antisymm h2 h1)
      rw [this]

/-- Witness for C7's amended theorem on a map with two ids of distinct
precedence. -/
theorem current_version_spec_witness :
    (available_versions [("1.0.0", 0), ("2.0.0", 1)]).getLast? = some "2.0.0" := by
  exact ((current_version_spec [("1.0.0", 0), ("2.0.0", 1)]).2 "2.0.0" rfl).2.2 (by decide)

/-- C8: registration through the decorator fails with `InvalidVersion` when
the id does not parse, fails with `VersionExists` when the id is already
present for the key (on reachable registries every stored id parses, making
the two failure conditions disjoint), and otherwise appends the new entry,
which is subsequently resolvable. -/
theorem register_version_spec (reg : Registry) (key v : String) (f : Impl)
    (hwf : ∀ p ∈ reg key, (parseVersion p.1).isSome = true) :
    (parseVersion v = none →
      (registerVersion reg key v f).1 = .error .invalidVersion) ∧
    (containsV (reg key) v = true →
      (registerVersion reg key v f).1 = .error .versionExists) ∧
    ((parseVersion v).isSome = true → containsV (reg key) v = false →
      (registerVersion reg key v f).1 = .ok () ∧
      (registerVersion reg key v f).2 key = reg key ++ [(v, f)] ∧
      callVersion ((registerVersion reg key v f).2 key) [] (some v) = .ok f false) := by
  refine ⟨?_, ?_, ?_⟩
  · intro hp
    simp [registerVersion, hp]
  · intro hc
    obtain ⟨g, hg⟩ := Option.isSome_iff_exists.1 (show (lookupV v (reg key)).isSome = true from hc)
    have hpv := hwf (v, g) (lookupV_mem _ _ _ hg)
    obtain ⟨pv, hpv'⟩ := Option.isSome_iff_exists.1 hpv
    simp [registerVersion, hpv', hc]
  · intro hpv hc
    obtain ⟨pv, hpv'⟩ := Option.isSome_iff_exists.1 hpv
    have hlookup := lookupV_append_self (reg key) v f hc
    have h2 : (registerVersion reg key v f).2 key = reg key ++ [(v, f)] := by
      simp [registerVersion, hpv', hc]
    refine ⟨by simp [registerVersion, hpv', hc], h2, ?_⟩
    rw [h2]
    simp [callVersion, isEmpty_false_of_lookupV _ _ _ hlookup, hlookup]

/-- Witness for C8 on the empty registry. -/
theorem register_version_spec_witness :
    (registerVersion (fun _ => []) "mod.greet" "1.0.0" 7).1 = .ok () ∧
    callVersion ((registerVersion (fun _ => []) "mod.greet" "1.0.0" 7).2 "mod.greet")
      [] (some "1.0.0") = .ok 7 false := by
  have h := (register_version_spec (fun _ => []) "mod.greet" "1.0.0" 7
    (by intro p hp; simp at hp)).2.2 (by decide) (by decide)
  exact ⟨h.1, h.2.2⟩

/-- C9: every failed registration — rejected for an invalid identifier or for
a duplicate id — leaves the state exactly as it was: the decorator path
returns the registry unchanged at every key, and the `add_version` path
returns the version map unchanged. -/
theorem failed_registration_preserves_state (reg : Registry) (key v : String)
    (f : Impl) (vm : VersionMap) (v' : String) (f' : Impl) :
    (∀ e, (registerVersion reg key v f).1 = .error e →
      ∀ k, (registerVersion reg key v f).2 k = reg k) ∧
    (∀ e, (add_version vm v' f').1 = .error e → (add_version vm v' f').2 = vm) := by
  constructor
  · intro e he k
    cases hp : parseVersion v with
    | none => simp [registerVersion, hp]
    | some pv =>
      by_cases hc : containsV (reg key) v
      · simp [registerVersion, hp, hc]
      · simp [registerVersion, hp, hc] at he
  · intro e he
    by_cases hc : containsV vm v'
    · simp [add_version, hc]
    · cases hp : parseVersion v' with
      | some pv => simp [add_version, hc, hp] at he
      | none => simp [add_version, hc, hp]

/-- Witness for C9: an invalid-id decorator failure and a duplicate-id
`add_version` failure, both leaving the state unchanged. -/
theorem failed_registration_preserves_state_witness :
    (registerVersion (fun _ => []) "m.f" "invalid_version" 1).2 "m.f" = [] ∧
    (add_version [("1.0.0", 2)] "1.0.0" 3).2 = [("1.0.0", 2)] := by
  have h := failed_registration_preserves_state (fun _ => []) "m.f" "invalid_version" 1
    [("1.0.0", 2)] "1.0.0" 3
  exact ⟨h.1 .invalidVersion rfl "m.f", h.2 .versionExists rfl⟩

/-- C10: the deprecated mark lives on the implementation object itself. When
two views — e.g. a derived class's merged inherited view and the ancestor's
own view — map the same version id to the same implementation object,
deprecating the id through one view succeeds and makes an explicit request
through the other view emit the deprecation notice as well. -/
theorem deprecate_marks_shared_object (m1 m2 : VersionMap) (depr : List Impl)
    (v : String) (f : Impl)
    (h1 : lookupV v m1 = some f) (h2 : lookupV v m2 = some f) :
    (deprecate_version m2 depr v).1 = .ok () ∧
    callVersion m1 (deprecate_version m2 depr v).2 (some v) = .ok f true := by
  have hne := isEmpty_false_of_lookupV m1 v f h1
  constructor
  · simp [deprecate_version, h2]
  · simp [deprecate_version, h2, callVersion, hne, h1]

/-- Witness for C10: deprecating "1.0.0" through the derived class's merged
view (base impl 7 inherited beside the derived "2.0.0" impl 5) makes the
explicit request through the base class's own view warn. -/
theorem deprecate_marks_shared_object_witness :
    callVersion [("1.0.0", 7)]
      ((deprecate_version (get_versions_in_mro [some [("2.0.0", 5)], some [("1.0.0", 7)]])
        [] "1.0.0").2) (some "1.0.0") = .ok 7 true := by
  exact (deprecate_marks_shared_object [("1.0.0", 7)]
    (get_versions_in_mro [some [("2.0.0", 5)], some [("1.0.0", 7)]]) [] "1.0.0" 7
    (by decide) (by decide)).2

end Funcversion
